import Mathlib

/-!
Verification of the hyprwhspr-rs real-time dictation core: a shallow
embedding of the resampler (`src/app.rs::resample_audio`), the sample-rate
tracker (`src/audio/capture.rs::SampleRateTracker`), the shortcut parser and
polling detector (`src/input/shortcuts.rs::GlobalShortcuts`), and the
recording orchestrator (`src/app.rs::HyprwhsprApp::handle_shortcut`).

Machine integers (u32/u64/usize/u16) are embedded as `Nat`: all arithmetic
in the embedded fragments stays far below any overflow boundary, and the Rust
code uses widening casts (`as u64`) at the one multiplication that could
overflow.  Sample values and time stamps are embedded as exact rationals `ℚ`
in place of f32/f64/`Instant`; none of the verified properties depends on
floating-point rounding (they concern branch structure, lengths, index
bounds, and comparisons of exact millisecond quantities).
-/

namespace Hyprwhspr

/-! ## Resampler (`src/app.rs`, lines 28-61)

`resample_audio(samples, src_rate, dst_rate)` — linear-interpolation
sample-rate conversion.  `resampleOutputLen` is the integer expression
`((src_len as u64 * dst_rate as u64) + (src_rate as u64 / 2)) / src_rate`.
`leftReadIndex`/`rightReadIndex` are the clamped indices
`idx.min(last_index)` and `(idx + 1).min(last_index)` with
`idx = floor(n * src_rate / dst_rate)` (exact, since `n`, `src_rate`,
`dst_rate` are integers) and `last_index = src_len.saturating_sub(1)`.
-/

/-- Output length of the resampler: `((src_len * dst) + src / 2) / src`. -/
def resampleOutputLen (srcLen src dst : Nat) : Nat :=
  (srcLen * dst + src / 2) / src

/-- Clamped left source index for output position `n`:
`(floor(n * src / dst)).min(last_index)`. -/
def leftReadIndex (n src dst srcLen : Nat) : Nat :=
  min (n * src / dst) (srcLen - 1)

/-- Clamped right source index for output position `n`:
`(floor(n * src / dst) + 1).min(last_index)`. -/
def rightReadIndex (n src dst srcLen : Nat) : Nat :=
  min (n * src / dst + 1) (srcLen - 1)

/-- Shallow embedding of `resample_audio` (src/app.rs:28-61).  Sample values
are exact rationals; the fractional position `frac = src_pos - idx` and the
interpolation `left + (right - left) * frac` follow the source line for line. -/
def resample_audio (samples : List ℚ) (src_rate dst_rate : Nat) : List ℚ :=
  if samples.isEmpty ∨ src_rate = 0 ∨ dst_rate = 0 then
    []
  else if src_rate = dst_rate then
    samples
  else
    let srcLen := samples.length
    let outputLen := resampleOutputLen srcLen src_rate dst_rate
    if outputLen = 0 then
      []
    else
      (List.range outputLen).map (fun n =>
        let idx := n * src_rate / dst_rate
        let frac : ℚ := (n * src_rate : ℚ) / (dst_rate : ℚ) - (idx : ℚ)
        let left := samples.getD (leftReadIndex n src_rate dst_rate srcLen) 0
        let right := samples.getD (rightReadIndex n src_rate dst_rate srcLen) 0
        left + (right - left) * frac)

lemma resample_audio_length (samples : List ℚ) (src dst : Nat)
    (h1 : samples ≠ []) (h2 : src ≠ 0) (h3 : dst ≠ 0) (h4 : src ≠ dst) :
    (resample_audio samples src dst).length =
      resampleOutputLen samples.length src dst := by
  unfold resample_audio
  simp only [List.isEmpty_iff, h1, h2, h3, h4, or_self, if_false, false_or, if_neg,
    not_false_iff]
  split
  · next h => simp [h]
  · simp

/-- C7: resample_audio returns the empty sequence whenever the input samples
are empty, or src_rate is zero, or dst_rate is zero (src/app.rs:29-31). -/
theorem resample_audio_empty_contract (samples : List ℚ) (src dst : Nat)
    (h : samples = [] ∨ src = 0 ∨ dst = 0) :
    resample_audio samples src dst = [] := by
  unfold resample_audio
  rcases h with h | h | h <;> simp [h]

theorem resample_audio_empty_contract_witness :
    (([] : List ℚ) = [] ∨ 16000 = 0 ∨ 8000 = 0) ∧
      resample_audio [] 16000 8000 = [] :=
  ⟨Or.inl rfl, resample_audio_empty_contract [] 16000 8000 (Or.inl rfl)⟩

/-- C3 counterexample: the identity law fails at rate `r = 0` — for the
non-empty input `[1]` with `src_rate = dst_rate = 0`, `resample_audio`
returns `[]`, not the input (the zero-rate guard at src/app.rs:29 fires
before the equal-rate identity branch at src/app.rs:32). -/
theorem resample_audio_identity_fails_at_rate_zero :
    resample_audio [(1 : ℚ)] 0 0 ≠ [(1 : ℚ)] := by
  decide

/-- C3 (amended): for every sample sequence and every nonzero rate `r`,
`resample_audio(samples, r, r)` returns the input unchanged; at `r = 0` the
zero-rate guard returns the empty sequence instead (src/app.rs:29-34). -/
theorem resample_audio_identity (samples : List ℚ) (r : Nat) (hr : r ≠ 0) :
    resample_audio samples r r = samples := by
  unfold resample_audio
  by_cases h : samples = []
  · simp [h]
  · simp [h, hr]

theorem resample_audio_identity_witness :
    (16000 ≠ 0) ∧ resample_audio [(1 : ℚ), 2, 3] 16000 16000 = [1, 2, 3] :=
  ⟨by decide, resample_audio_identity [(1 : ℚ), 2, 3] 16000 (by decide)⟩

/-- C4: round-trip length law — downsampling 16000 → 8000 and back 8000 →
16000 yields a sequence whose length differs from the input's by at most one
sample (src/app.rs:41: the output length is the integer expression
`(len * dst + src / 2) / src`, so the round trip gives `2 * ((len + 1) / 2)`). -/
theorem resample_audio_roundtrip_length (x : List ℚ) :
    (resample_audio (resample_audio x 16000 8000) 8000 16000).length ≤ x.length + 1 ∧
      x.length ≤ (resample_audio (resample_audio x 16000 8000) 8000 16000).length + 1 := by
  by_cases hx : x = []
  · subst hx
    simp [resample_audio]
  · have hlen1 : (resample_audio x 16000 8000).length =
        resampleOutputLen x.length 16000 8000 :=
      resample_audio_length x 16000 8000 hx (by decide) (by decide) (by decide)
    have hxpos : 0 < x.length := List.length_pos.mpr hx
    have hmid : resampleOutputLen x.length 16000 8000 = (x.length + 1) / 2 := by
      unfold resampleOutputLen
      omega
    have hmidpos : 0 < (resample_audio x 16000 8000).length := by
      rw [hlen1, hmid]; omega
    have hne : resample_audio x 16000 8000 ≠ [] :=
      List.length_pos.mp hmidpos
    have hlen2 : (resample_audio (resample_audio x 16000 8000) 8000 16000).length =
        resampleOutputLen (resample_audio x 16000 8000).length 8000 16000 :=
      resample_audio_length _ 8000 16000 hne (by decide) (by decide) (by decide)
    rw [hlen2, hlen1, hmid]
    unfold resampleOutputLen
    omega

/-- C8: resampler boundary safety — for every non-empty input and every
output position, both source reads use an index clamped to the last valid
source index, hence strictly below the source length (src/app.rs:48,54-55:
`last_index = src_len.saturating_sub(1)`, reads `samples[idx.min(last_index)]`
and `samples[(idx + 1).min(last_index)]`). -/
theorem resample_audio_reads_in_bounds (samples : List ℚ) (src dst n : Nat)
    (hne : samples ≠ []) (hsrc : src ≠ 0) (hdst : dst ≠ 0) (hdiff : src ≠ dst)
    (hn : n < resampleOutputLen samples.length src dst) :
    leftReadIndex n src dst samples.length < samples.length ∧
      rightReadIndex n src dst samples.length < samples.length := by
  have hpos : 0 < samples.length := List.length_pos.mpr hne
  constructor
  · exact lt_of_le_of_lt (min_le_right _ _) (by omega)
  · exact lt_of_le_of_lt (min_le_right _ _) (by omega)

theorem resample_audio_reads_in_bounds_witness :
    leftReadIndex 0 16000 8000 ([(1 : ℚ)] : List ℚ).length < ([(1 : ℚ)] : List ℚ).length ∧
      rightReadIndex 0 16000 8000 ([(1 : ℚ)] : List ℚ).length < ([(1 : ℚ)] : List ℚ).length :=
  resample_audio_reads_in_bounds [(1 : ℚ)] 16000 8000 0 (by decide) (by decide)
    (by decide) (by decide) (by decide)

/-! ## SampleRateTracker (`src/audio/capture.rs`, lines 36-86)

Capture timestamps (`cpal::StreamInstant`) and durations are embedded as
exact rationals measured in seconds.  `durationSince` models
`StreamInstant::duration_since`, which returns `None` when the second
instant is earlier than the first. -/

/-- Tracker state (src/audio/capture.rs:36-44).  `channels` is the u16
channel count; `measured` is the last computed rate. -/
structure SampleRateTracker where
  requested : Nat
  channels : Nat
  lastCapture : Option ℚ
  accumulatedFrames : Nat
  accumulatedDuration : ℚ
  measured : Option Nat
deriving DecidableEq

/-- `StreamInstant::duration_since`: `some (b - a)` when `a ≤ b`, else `none`. -/
def durationSince (capture prev : ℚ) : Option ℚ :=
  if prev ≤ capture then some (capture - prev) else none

/-- Divisor used for the per-callback frame count: `channels.max(1)`
(src/audio/capture.rs:63). -/
def channelCount (channels : Nat) : Nat :=
  max channels 1

/-- Per-callback frame count: `data_len / channel_count`
(src/audio/capture.rs:64). -/
def framesOf (channels dataLen : Nat) : Nat :=
  dataLen / channelCount channels

/-- Shallow embedding of `SampleRateTracker::update`
(src/audio/capture.rs:58-81): accumulate frames and elapsed duration between
consecutive capture timestamps; once ≥ 50 ms has accumulated, set
`measured = round(frames / seconds)` (when both are positive) and reset the
accumulators; always record the new capture timestamp. -/
def SampleRateTracker.update (t : SampleRateTracker) (dataLen : Nat)
    (capture : ℚ) : SampleRateTracker :=
  let t' :=
    match t.lastCapture with
    | none => t
    | some prev =>
      match durationSince capture prev with
      | none => t
      | some delta =>
        let frames := framesOf t.channels dataLen
        let accFrames := t.accumulatedFrames + frames
        let accDur := t.accumulatedDuration + delta
        if (1 : ℚ) / 20 ≤ accDur then
          let newMeasured :=
            if 0 < accDur ∧ 0 < accFrames then
              some (round ((accFrames : ℚ) / accDur)).toNat
            else
              t.measured
          { t with accumulatedFrames := 0, accumulatedDuration := 0,
                   measured := newMeasured }
        else
          { t with accumulatedFrames := accFrames, accumulatedDuration := accDur }
  { t' with lastCapture := some capture }

/-- `sample_rate()`: the measured rate, falling back to the requested rate
(src/audio/capture.rs:83-85). -/
def SampleRateTracker.sampleRate (t : SampleRateTracker) : Nat :=
  t.measured.getD t.requested

/-- C10: `SampleRateTracker::update` is total for every channel count — the
divisor is `channels.max(1)`, which is positive for every channel count, so a
tracker built with zero channels never divides by zero: its frame count
equals the raw data length, and `update` on a zero-channel tracker computes
exactly as on the same tracker with one channel. -/
theorem sampleRateTracker_update_total :
    (∀ c : Nat, 0 < channelCount c) ∧
    (∀ d : Nat, framesOf 0 d = d) ∧
    (∀ (t : SampleRateTracker) (d : Nat) (ts : ℚ), t.channels = 0 →
      SampleRateTracker.update { t with channels := 1 } d ts =
        { SampleRateTracker.update t d ts with channels := 1 }) := by
  refine ⟨fun c => ?_, fun d => ?_, fun t d ts hc => ?_⟩
  · exact lt_of_lt_of_le Nat.one_pos (le_max_right c 1)
  · simp [framesOf, channelCount]
  · obtain ⟨req, ch, lc, af, ad, m⟩ := t
    simp only at hc
    subst hc
    have hframes : framesOf 1 d = framesOf 0 d := by
      simp [framesOf, channelCount]
    cases lc with
    | none => simp [SampleRateTracker.update]
    | some prev =>
      cases hdelta : durationSince ts prev with
      | none => simp [SampleRateTracker.update, hdelta]
      | some delta =>
        by_cases hdur : (20 : ℚ)⁻¹ ≤ ad + delta
        · by_cases hm : 0 < ad + delta ∧ 0 < af + framesOf 0 d
          · simp [SampleRateTracker.update, hdelta, hframes, hdur, hm]
          · simp only [SampleRateTracker.update, hdelta, hframes]
            simp [hdur, hm]
        · simp [SampleRateTracker.update, hdelta, hframes, hdur]

theorem sampleRateTracker_update_total_witness :
    (⟨16000, 0, none, 0, 0, none⟩ : SampleRateTracker).channels = 0 ∧
      SampleRateTracker.update
          { (⟨16000, 0, none, 0, 0, none⟩ : SampleRateTracker) with channels := 1 } 480 0 =
        { SampleRateTracker.update (⟨16000, 0, none, 0, 0, none⟩ : SampleRateTracker) 480 0 with
            channels := 1 } :=
  ⟨rfl, sampleRateTracker_update_total.2.2 ⟨16000, 0, none, 0, 0, none⟩ 480 0 rfl⟩

/-! ## Shortcut parsing (`src/input/shortcuts.rs`, lines 285-385)

Physical keys are embedded as their Linux evdev key codes (`Nat`).
`parse_key` is the fixed lookup table of `GlobalShortcuts::parse_key`;
`parse_shortcut` splits on `'+'`, trims and uppercases each token, and
collects the parsed keys into a set, failing if any token is unknown or the
resulting set is empty. -/

/-- Lookup table of `GlobalShortcuts::parse_key` (src/input/shortcuts.rs:302-385),
with each `evdev::Key` replaced by its Linux key code. -/
def parse_key : String → Option Nat
  | "SUPER" | "META" | "WIN" | "WINDOWS" => some 125
  | "ALT" => some 56
  | "CTRL" | "CONTROL" => some 29
  | "SHIFT" => some 42
  | "F1" => some 59
  | "F2" => some 60
  | "F3" => some 61
  | "F4" => some 62
  | "F5" => some 63
  | "F6" => some 64
  | "F7" => some 65
  | "F8" => some 66
  | "F9" => some 67
  | "F10" => some 68
  | "F11" => some 87
  | "F12" => some 88
  | "A" => some 30
  | "B" => some 48
  | "C" => some 46
  | "D" => some 32
  | "E" => some 18
  | "F" => some 33
  | "G" => some 34
  | "H" => some 35
  | "I" => some 23
  | "J" => some 36
  | "K" => some 37
  | "L" => some 38
  | "M" => some 50
  | "N" => some 49
  | "O" => some 24
  | "P" => some 25
  | "Q" => some 16
  | "R" => some 19
  | "S" => some 31
  | "T" => some 20
  | "U" => some 22
  | "V" => some 47
  | "W" => some 17
  | "X" => some 45
  | "Y" => some 21
  | "Z" => some 44
  | "0" => some 11
  | "1" => some 2
  | "2" => some 3
  | "3" => some 4
  | "4" => some 5
  | "5" => some 6
  | "6" => some 7
  | "7" => some 8
  | "8" => some 9
  | "9" => some 10
  | "SPACE" => some 57
  | "ENTER" | "RETURN" => some 28
  | "ESC" | "ESCAPE" => some 1
  | "TAB" => some 15
  | "BACKSPACE" => some 14
  | "DELETE" | "DEL" => some 111
  | "INSERT" | "INS" => some 110
  | "HOME" => some 102
  | "END" => some 107
  | "PAGEUP" | "PGUP" => some 104
  | "PAGEDOWN" | "PGDOWN" => some 109
  | "UP" => some 103
  | "DOWN" => some 108
  | "LEFT" => some 105
  | "RIGHT" => some 106
  | _ => none

/-- `str::split('+')` on the character list of the spec string: every `'+'`
starts a new (possibly empty) token, and the empty string yields one empty
token, exactly as in Rust. -/
def splitOnPlus (cs : List Char) : List (List Char) :=
  cs.foldr (fun c acc => if c = '+' then [] :: acc else (c :: acc.headI) :: acc.tail) [[]]

/-- `str::trim()` on a character list: drop whitespace from both ends. -/
def trimChars (cs : List Char) : List Char :=
  ((cs.dropWhile Char.isWhitespace).reverse.dropWhile Char.isWhitespace).reverse

/-- `str::to_uppercase()` on a character list (ASCII uppercasing, which
agrees with Rust on every token of the lookup table). -/
def toUpperChars (cs : List Char) : List Char :=
  cs.map Char.toUpper

/-- Token normalisation applied before the lookup: `part.trim().to_uppercase()`
(src/input/shortcuts.rs:289). -/
def normalizeToken (p : String) : String :=
  String.mk (toUpperChars (trimChars p.data))

/-- The parsing loop of `parse_shortcut` (src/input/shortcuts.rs:288-293):
insert each parsed key into the accumulator set, failing on the first
unknown token. -/
def parsePartsAux : List String → Finset Nat → Option (Finset Nat)
  | [], acc => some acc
  | p :: rest, acc =>
    match parse_key (normalizeToken p) with
    | some k => parsePartsAux rest (insert k acc)
    | none => none

/-- `parse_shortcut` applied to the already-split token list: run the loop
from the empty set, then reject an empty result set
(src/input/shortcuts.rs:295-299). -/
def parseParts (parts : List String) : Option (Finset Nat) :=
  match parsePartsAux parts ∅ with
  | some keys => if keys = ∅ then none else some keys
  | none => none

/-- `GlobalShortcuts::parse_shortcut` (src/input/shortcuts.rs:285-300):
split the spec string on `'+'` and parse the parts. -/
def parse_shortcut (shortcut : String) : Option (Finset Nat) :=
  parseParts ((splitOnPlus shortcut.data).map String.mk)

lemma parsePartsAux_eq (l : List String) (acc : Finset Nat) :
    parsePartsAux l acc =
      if l.all (fun p => (parse_key (normalizeToken p)).isSome) then
        some (acc ∪ (l.filterMap (fun p => parse_key (normalizeToken p))).toFinset)
      else
        none := by
  induction l generalizing acc with
  | nil => simp [parsePartsAux]
  | cons p rest ih =>
    cases hk : parse_key (normalizeToken p) with
    | none => simp [parsePartsAux, hk]
    | some k =>
      have hfm : (p :: rest).filterMap (fun q => parse_key (normalizeToken q)) =
          k :: rest.filterMap (fun q => parse_key (normalizeToken q)) := by
        simp [List.filterMap_cons, hk]
      simp only [parsePartsAux, hk, ih, List.all_cons, Option.isSome_some,
        Bool.true_and, hfm, List.toFinset_cons]
      split
      · rw [Finset.insert_union, Finset.union_insert]
      · rfl

lemma parseParts_perm {l l' : List String} (h : l.Perm l') :
    parseParts l = parseParts l' := by
  unfold parseParts
  rw [parsePartsAux_eq, parsePartsAux_eq]
  have hiff : (l.all (fun p => (parse_key (normalizeToken p)).isSome) = true) ↔
      (l'.all (fun p => (parse_key (normalizeToken p)).isSome) = true) := by
    simp only [List.all_eq_true]
    exact ⟨fun ha p hp => ha p (h.mem_iff.mpr hp), fun ha p hp => ha p (h.mem_iff.mp hp)⟩
  have hall : l.all (fun p => (parse_key (normalizeToken p)).isSome) =
      l'.all (fun p => (parse_key (normalizeToken p)).isSome) := by
    cases ha : l.all (fun p => (parse_key (normalizeToken p)).isSome) <;>
      cases hb : l'.all (fun p => (parse_key (normalizeToken p)).isSome) <;>
      simp_all
  have hfins : (l.filterMap (fun p => parse_key (normalizeToken p))).toFinset =
      (l'.filterMap (fun p => parse_key (normalizeToken p))).toFinset := by
    ext k
    simp only [List.mem_toFinset, List.mem_filterMap]
    constructor
    · rintro ⟨p, hp, hpk⟩
      exact ⟨p, h.mem_iff.mp hp, hpk⟩
    · rintro ⟨p, hp, hpk⟩
      exact ⟨p, h.mem_iff.mpr hp, hpk⟩
  rw [hall, hfins]

/-- C9: shortcut parsing is order-independent — parsing any permutation of
the token list yields the same key set and the same success/failure, and in
particular `parse_shortcut "CTRL+A"` equals `parse_shortcut "A+CTRL"`
(the accumulator is a set, src/input/shortcuts.rs:285-300). -/
theorem parse_shortcut_order_independent :
    (∀ (l l' : List String), l.Perm l' → parseParts l = parseParts l') ∧
      parse_shortcut "CTRL+A" = parse_shortcut "A+CTRL" := by
  refine ⟨fun l l' h => parseParts_perm h, ?_⟩
  have h1 : (splitOnPlus "CTRL+A".data).map String.mk = ["CTRL", "A"] := by decide
  have h2 : (splitOnPlus "A+CTRL".data).map String.mk = ["A", "CTRL"] := by decide
  unfold parse_shortcut
  rw [h1, h2]
  exact parseParts_perm (List.Perm.swap "A" "CTRL" [])

theorem parse_shortcut_order_independent_witness :
    (["CTRL", "A"] : List String).Perm ["A", "CTRL"] ∧
      parseParts ["CTRL", "A"] = parseParts ["A", "CTRL"] :=
  ⟨List.Perm.swap "A" "CTRL" [],
    parse_shortcut_order_independent.1 ["CTRL", "A"] ["A", "CTRL"]
      (List.Perm.swap "A" "CTRL" [])⟩

/-! ## Shortcut detector (`src/input/shortcuts.rs`, lines 86-283)

The polling loop of `GlobalShortcuts::run`, restricted to its key-event
handling (the claims concern only the events sent on the channel; device
hot-plug bookkeeping clears the pressed-set and the active flag but sends
nothing).  Times are integers measured in milliseconds; the 500 ms debounce
window is `debounceMs`.  `Instant::duration_since` saturates at zero, which
`elapsedSince` mirrors.  The pressed-key `HashSet` is embedded as a
duplicate-free `List Nat` with set-semantics insert/remove/subset. -/

/-- `ShortcutKind` (src/input/shortcuts.rs:17-21). -/
inductive ShortcutKind where
  | Hold
  | Press
deriving DecidableEq

/-- `ShortcutPhase` (src/input/shortcuts.rs:23-27). -/
inductive ShortcutPhase where
  | Start
  | End
deriving DecidableEq

/-- `ShortcutEvent` (src/input/shortcuts.rs:29-34), with the `Instant`
timestamp embedded as an integer number of milliseconds. -/
structure ShortcutEvent where
  triggeredAt : ℤ
  kind : ShortcutKind
  phase : ShortcutPhase
deriving DecidableEq

/-- `HashSet::insert`: a no-op when the key is already present. -/
def insertKey (k : Nat) (l : List Nat) : List Nat :=
  if l.contains k then l else k :: l

/-- `HashSet::remove`: drop every occurrence of the key. -/
def removeKey (k : Nat) (l : List Nat) : List Nat :=
  l.filter (fun x => x ≠ k)

/-- `HashSet::is_subset`: every target key is pressed. -/
def isSubsetOf (target l : List Nat) : Bool :=
  target.all (fun k => l.contains k)

/-- Mutable loop state of `GlobalShortcuts::run` (src/input/shortcuts.rs:87-90):
the pressed-key set, the last trigger time, and the combination-active flag. -/
structure DetectorState where
  pressed : List Nat
  lastTrigger : ℤ
  combinationActive : Bool
deriving DecidableEq

/-- One raw key event read from a device: its processing time, the key code,
and the evdev value (1 = down, 0 = up, anything else ignored). -/
structure KeyInput where
  time : ℤ
  key : Nat
  value : Nat
deriving DecidableEq

/-- The 500 ms debounce window (src/input/shortcuts.rs:89). -/
def debounceMs : ℤ := 500

/-- `Instant::duration_since`, which saturates at zero when `now < last`. -/
def elapsedSince (now last : ℤ) : ℤ :=
  max (now - last) 0

/-- Initial loop state (src/input/shortcuts.rs:87-90): empty pressed-set,
`last_trigger = now - 10s`, combination inactive. -/
def initDetectorState (startTime : ℤ) : DetectorState :=
  ⟨[], startTime - 10000, false⟩

/-- Key-event handling of the polling loop (src/input/shortcuts.rs:155-233).
On key-down: insert the key; if the target set is now a subset of the
pressed-set and the combination was not already active, evaluate the
debounce (`Hold` always passes; `Press` requires strictly more than 500 ms
since the last trigger); on success record the trigger time, set the active
flag and emit `Start`.  On key-up: remove the key; if the combination was
active and the target set is no longer a subset, clear the flag and emit
`End` for a `Hold` detector only. -/
def detectorStep (target : List Nat) (kind : ShortcutKind)
    (s : DetectorState) (inp : KeyInput) : DetectorState × List ShortcutEvent :=
  match inp.value with
  | 1 =>
    let pressed := insertKey inp.key s.pressed
    if isSubsetOf target pressed && !s.combinationActive then
      let shouldTrigger : Bool :=
        match kind with
        | .Hold => true
        | .Press => decide (debounceMs < elapsedSince inp.time s.lastTrigger)
      if shouldTrigger then
        (⟨pressed, inp.time, true⟩, [⟨inp.time, kind, .Start⟩])
      else
        (⟨pressed, s.lastTrigger, s.combinationActive⟩, [])
    else
      (⟨pressed, s.lastTrigger, s.combinationActive⟩, [])
  | 0 =>
    let pressed := removeKey inp.key s.pressed
    if s.combinationActive && !(isSubsetOf target pressed) then
      (⟨pressed, s.lastTrigger, false⟩,
        match kind with
        | .Hold => [⟨inp.time, kind, .End⟩]
        | .Press => [])
    else
      (⟨pressed, s.lastTrigger, s.combinationActive⟩, [])
  | _ => (s, [])

/-- The polling loop over a sequence of key events, collecting every event
sent on the channel. -/
def runDetector (target : List Nat) (kind : ShortcutKind) :
    DetectorState → List KeyInput → DetectorState × List ShortcutEvent
  | s, [] => (s, [])
  | s, inp :: rest =>
    let step := detectorStep target kind s inp
    let next := runDetector target kind step.1 rest
    (next.1, step.2 ++ next.2)

lemma detectorStep_press_phase (target : List Nat) (s : DetectorState)
    (inp : KeyInput) (e : ShortcutEvent)
    (he : e ∈ (detectorStep target .Press s inp).2) : e.phase = .Start := by
  unfold detectorStep at he
  rcases inp with ⟨t, k, v⟩
  match v with
  | 0 =>
    simp only at he
    split at he <;> simp at he
  | 1 =>
    simp only at he
    split at he
    · split at he <;> simp at he
      subst he
      rfl
    · simp at he
  | (n + 2) =>
    simp at he

/-- C6: a `Press`-kind detector never emits an `End` event — over every
sequence of key-down/key-up inputs, every event it sends on the channel has
phase `Start` (the only `End` emission site, src/input/shortcuts.rs:218-229,
is guarded by `matches!(self.kind, ShortcutKind::Hold)`). -/
theorem press_detector_never_emits_end (target : List Nat)
    (s : DetectorState) (inputs : List KeyInput) (e : ShortcutEvent)
    (he : e ∈ (runDetector target .Press s inputs).2) : e.phase = .Start := by
  induction inputs generalizing s with
  | nil => simp [runDetector] at he
  | cons inp rest ih =>
    simp only [runDetector, List.mem_append] at he
    rcases he with he | he
    · exact detectorStep_press_phase target s inp e he
    · exact ih _ he

theorem press_detector_never_emits_end_witness :
    (⟨10000, .Press, .Start⟩ : ShortcutEvent) ∈
        (runDetector [30] .Press (initDetectorState 10000) [⟨10000, 30, 1⟩]).2 ∧
      (⟨10000, .Press, .Start⟩ : ShortcutEvent).phase = .Start :=
  ⟨by decide, press_detector_never_emits_end [30] (initDetectorState 10000)
    [⟨10000, 30, 1⟩] ⟨10000, .Press, .Start⟩ (by decide)⟩

/-- C5: press debounce — when a key-down completes the combination from an
inactive state, a `Press` detector emits `Start` exactly when strictly more
than 500 ms elapsed since the last trigger (recording the new trigger time),
and otherwise drops the press silently with the last-trigger time unchanged;
a `Hold` detector always emits `Start` on completion; and the concrete
two-press scenario (second press 200 ms after the first) yields exactly one
`Start` event (src/input/shortcuts.rs:158-204). -/
theorem press_debounce
    (target : List Nat) (s : DetectorState) (inp : KeyInput)
    (hv : inp.value = 1)
    (hsub : isSubsetOf target (insertKey inp.key s.pressed) = true)
    (hact : s.combinationActive = false) :
    (debounceMs < elapsedSince inp.time s.lastTrigger →
      detectorStep target .Press s inp =
        (⟨insertKey inp.key s.pressed, inp.time, true⟩, [⟨inp.time, .Press, .Start⟩])) ∧
    (elapsedSince inp.time s.lastTrigger ≤ debounceMs →
      detectorStep target .Press s inp =
        (⟨insertKey inp.key s.pressed, s.lastTrigger, false⟩, [])) ∧
    (detectorStep target .Hold s inp =
      (⟨insertKey inp.key s.pressed, inp.time, true⟩, [⟨inp.time, .Hold, .Start⟩])) ∧
    (runDetector [30] .Press (initDetectorState 10000)
        [⟨10000, 30, 1⟩, ⟨10100, 30, 0⟩, ⟨10200, 30, 1⟩]).2 =
      [⟨10000, .Press, .Start⟩] := by
  rcases inp with ⟨t, k, v⟩
  simp only at hv
  subst hv
  refine ⟨fun hdeb => ?_, fun hdeb => ?_, ?_, by decide⟩
  · simp only [detectorStep]
    rw [hsub, hact]
    simp [hdeb]
  · have hnl : ¬ (debounceMs < elapsedSince t s.lastTrigger) := not_lt.mpr hdeb
    simp only [detectorStep]
    rw [hsub, hact]
    simp [hnl]
  · simp only [detectorStep]
    rw [hsub, hact]
    simp

theorem press_debounce_witness :
    ((⟨10000, 30, 1⟩ : KeyInput).value = 1 ∧
        isSubsetOf [30] (insertKey (⟨10000, 30, 1⟩ : KeyInput).key
          (initDetectorState 10000).pressed) = true ∧
        (initDetectorState 10000).combinationActive = false) ∧
      (runDetector [30] .Press (initDetectorState 10000)
          [⟨10000, 30, 1⟩, ⟨10100, 30, 0⟩, ⟨10200, 30, 1⟩]).2 =
        [⟨10000, .Press, .Start⟩] :=
  ⟨⟨rfl, by decide, rfl⟩,
    (press_debounce [30] (initDetectorState 10000) ⟨10000, 30, 1⟩ rfl
      (by decide) rfl).2.2.2⟩

/-! ## Recording orchestrator (`src/app.rs`, lines 470-582)

`HyprwhsprApp::handle_shortcut` dispatches one shortcut event against the
mutable trio `recording_session : Option<RecordingSession>`,
`recording_trigger : Option<RecordingTrigger>`, `is_processing : bool`.
The orchestrator runs on a single-threaded event loop, so one dispatch is a
pure function of this state; the session-opening and session-stopping side
effects are recorded as `OrcAction`s.  `stop_recording` runs the processing
pipeline inline (`is_processing` is set and cleared within the call), so at
the end of a dispatch `is_processing` is false again. -/

/-- `RecordingTrigger` (src/app.rs:124-128). -/
inductive RecordingTrigger where
  | HoldShortcut
  | PressShortcut
deriving DecidableEq

/-- Observable session actions of one dispatch: `start_recording(trigger)`
opens a new `RecordingSession`; `stop_recording` consumes the current one. -/
inductive OrcAction where
  | startSession (trigger : RecordingTrigger)
  | stopSession
deriving DecidableEq

/-- The orchestrator's recording state (src/app.rs:183-186):
`recording_session`, `recording_trigger`, `is_processing`. -/
structure AppState where
  recordingSession : Option Unit
  recordingTrigger : Option RecordingTrigger
  isProcessing : Bool
deriving DecidableEq

/-- Initial orchestrator state (src/app.rs:266-269). -/
def initAppState : AppState :=
  ⟨none, none, false⟩

/-- `start_recording(trigger)` (src/app.rs:513-540): open a session and
remember the trigger. -/
def startRecording (trigger : RecordingTrigger) (s : AppState) :
    AppState × List OrcAction :=
  ({ s with recordingSession := some (), recordingTrigger := some trigger },
    [.startSession trigger])

/-- `stop_recording` (src/app.rs:542-582): take the session, clear the
trigger, run the pipeline inline (`is_processing` is true only during the
call and false when it returns). -/
def stopRecording (s : AppState) : AppState × List OrcAction :=
  ({ s with recordingSession := none, recordingTrigger := none,
            isProcessing := false },
    [.stopSession])

/-- `HyprwhsprApp::handle_shortcut` (src/app.rs:470-511): the transition
table on `(kind, phase)` — Press/Start toggles start/stop unless processing;
Hold/Start starts only from idle; Hold/End stops only a hold-triggered
recording; Press/End falls into the wildcard arm and does nothing. -/
def handleShortcut (s : AppState) (ev : ShortcutEvent) :
    AppState × List OrcAction :=
  match ev.kind, ev.phase with
  | .Press, .Start =>
    if s.isProcessing then
      (s, [])
    else if s.recordingSession.isSome then
      stopRecording s
    else
      startRecording .PressShortcut s
  | .Hold, .Start =>
    if s.isProcessing then
      (s, [])
    else if s.recordingSession.isSome then
      (s, [])
    else
      startRecording .HoldShortcut s
  | .Hold, .End =>
    if s.recordingTrigger = some .HoldShortcut ∧ s.recordingSession.isSome then
      stopRecording s
    else
      (s, [])
  | .Press, .End => (s, [])

/-- The orchestrator's event loop over a sequence of shortcut events. -/
def runOrchestrator : AppState → List ShortcutEvent → AppState × List OrcAction
  | s, [] => (s, [])
  | s, ev :: rest =>
    let step := handleShortcut s ev
    let next := runOrchestrator step.1 rest
    (next.1, step.2 ++ next.2)

/-- Number of live recording sessions held by a state: the Rust field is
`Option<RecordingSession>`, so this is 0 or 1. -/
def sessionCount (s : AppState) : Nat :=
  s.recordingSession.elim 0 (fun _ => 1)

/-- C1: at most one recording is ever active — every reachable orchestrator
state holds at most one `RecordingSession`, and `start_recording` is invoked
only from a state with no session and no processing in flight (Press/Start:
src/app.rs:472-484; Hold/Start: src/app.rs:485-497). -/
theorem at_most_one_recording :
    (∀ (s : AppState) (ev : ShortcutEvent) (t : RecordingTrigger),
      OrcAction.startSession t ∈ (handleShortcut s ev).2 →
        s.recordingSession = none ∧ s.isProcessing = false) ∧
    (∀ evs : List ShortcutEvent,
      sessionCount (runOrchestrator initAppState evs).1 ≤ 1) := by
  constructor
  · intro s ev t hmem
    rcases ev with ⟨at_, kind, phase⟩
    cases kind <;> cases phase <;> simp only [handleShortcut] at hmem
    · -- Hold / Start
      split at hmem
      · simp at hmem
      · split at hmem
        · simp at hmem
        · rename_i hproc hsess
          simp only [Bool.not_eq_true] at hproc
          exact ⟨Option.not_isSome_iff_eq_none.mp hsess, hproc⟩
    · -- Hold / End
      split at hmem <;> simp [stopRecording] at hmem
    · -- Press / Start
      split at hmem
      · simp at hmem
      · split at hmem
        · simp [stopRecording] at hmem
        · rename_i hproc hsess
          simp only [Bool.not_eq_true] at hproc
          exact ⟨Option.not_isSome_iff_eq_none.mp hsess, hproc⟩
    · -- Press / End
      simp at hmem
  · intro evs
    have h : ∀ (s : AppState) (evs : List ShortcutEvent),
        sessionCount (runOrchestrator s evs).1 ≤ 1 := by
      intro s evs
      induction evs generalizing s with
      | nil =>
        rcases s with ⟨sess, trig, proc⟩
        cases sess <;> simp [runOrchestrator, sessionCount]
      | cons ev rest ih => exact ih _
    exact h initAppState evs

theorem at_most_one_recording_witness :
    initAppState.recordingSession = none ∧ initAppState.isProcessing = false :=
  at_most_one_recording.1 initAppState ⟨0, .Press, .Start⟩ .PressShortcut
    (by decide)

/-- C2: a Hold/End event stops the recording if and only if a session is
active and its recorded trigger is Hold; in every other case — in particular
while a Press-triggered recording is active — the dispatch returns the state
unchanged and performs no action (src/app.rs:498-506). -/
theorem hold_end_stops_only_hold_recording
    (s : AppState) (ev : ShortcutEvent)
    (hk : ev.kind = .Hold) (hp : ev.phase = .End) :
    ((handleShortcut s ev).2 = [OrcAction.stopSession] ↔
      (s.recordingTrigger = some .HoldShortcut ∧ s.recordingSession.isSome = true)) ∧
    (s.recordingTrigger = some .PressShortcut → handleShortcut s ev = (s, [])) ∧
    (¬ (s.recordingTrigger = some .HoldShortcut ∧ s.recordingSession.isSome = true) →
      handleShortcut s ev = (s, [])) := by
  rcases ev with ⟨at_, kind, phase⟩
  simp only at hk hp
  subst hk; subst hp
  refine ⟨?_, fun htrig => ?_, fun hcond => ?_⟩
  · constructor
    · intro hact
      by_contra hcond
      simp only [handleShortcut, if_neg hcond] at hact
      exact List.cons_ne_nil _ _ hact.symm
    · intro hcond
      simp [handleShortcut, hcond, stopRecording]
  · have hcond : ¬ (s.recordingTrigger = some .HoldShortcut ∧
        s.recordingSession.isSome = true) := by
      rintro ⟨hh, _⟩
      rw [htrig] at hh
      simp at hh
    simp [handleShortcut, hcond]
  · simp [handleShortcut, hcond]

theorem hold_end_stops_only_hold_recording_witness :
    ((⟨0, .Hold, .End⟩ : ShortcutEvent).kind = .Hold ∧
        (⟨0, .Hold, .End⟩ : ShortcutEvent).phase = .End) ∧
      handleShortcut ⟨some (), some .PressShortcut, false⟩ ⟨0, .Hold, .End⟩ =
        (⟨some (), some .PressShortcut, false⟩, []) :=
  ⟨⟨rfl, rfl⟩,
    (hold_end_stops_only_hold_recording ⟨some (), some .PressShortcut, false⟩
      ⟨0, .Hold, .End⟩ rfl rfl).2.1 rfl⟩

end Hyprwhspr
